import Mathlib

/-!
Verification of the minibatch cycling `generator` from the batch-training
notebook.  The Python source is:

```
def generator(arrays, batch_size):
  """Generate batches, one with respect to each array's first axis."""
  starts = [0] * len(arrays)  # pointers to where we are in iteration
  while True:
    batches = []
    for i, array in enumerate(arrays):
      start = starts[i]
      stop = start + batch_size
      diff = stop - array.shape[0]
      if diff <= 0:
        batch = array[start:stop]
        starts[i] += batch_size
      else:
        batch = np.concatenate((array[start:], array[:diff]))
        starts[i] = diff
      batches.append(batch)
    yield batches
```

An array is embedded as a `List α` of its rows along the first axis; the
integer cursor `starts[i]` is a `Nat` (it starts at `0` and is only ever set
to `start + batch_size` or to a positive `diff`, so it never becomes
negative).  The test `diff <= 0` on integers is `start + batch_size ≤ length`
on `Nat`.  NumPy slices with nonnegative bounds clamp to the array length,
exactly as `List.take` / `List.drop` do.
-/

namespace BatchTraining

variable {α : Type}

/-- Python slice `a[i:j]` for nonnegative indices `i`, `j`: the elements at
positions `i, …, j-1`, clamped to the length of the list. -/
def pySlice (a : List α) (i j : Nat) : List α :=
  (a.take j).drop i

/-- The per-array body of one `while True` iteration of `generator`: from the
cursor `start` of one tracked `array` it returns the produced `batch` and the
updated cursor.  `stop = start + batch_size`, `diff = stop - len(array)`;
when `diff <= 0` the batch is `array[start:stop]` and the cursor advances by
`batch_size`, otherwise the batch is `array[start:] ++ array[:diff]` and the
cursor is reset to `diff`. -/
def generatorStep (batch_size : Nat) (array : List α) (start : Nat) :
    List α × Nat :=
  let stop := start + batch_size
  if stop ≤ array.length then
    (pySlice array start stop, start + batch_size)
  else
    (array.drop start ++ array.take (stop - array.length),
      stop - array.length)

/-- The cursor of a single tracked array after `k` production calls, starting
from cursor `start`. -/
def cursorAfter (batch_size : Nat) (array : List α) (start : Nat) :
    Nat → Nat
  | 0 => start
  | k + 1 => (generatorStep batch_size array
      (cursorAfter batch_size array start k)).2

/-- The batch produced for a single tracked array by production call `k + 1`
(zero-indexed call `k`), starting from cursor `start`. -/
def batchAt (batch_size : Nat) (array : List α) (start k : Nat) : List α :=
  (generatorStep batch_size array (cursorAfter batch_size array start k)).1

/-- The list `batches` yielded by one `while True` iteration, given the
current cursor list `starts` (the loop `for i, array in enumerate(arrays)`
pairs each array with its own cursor). -/
def generatorBatches (batch_size : Nat) (arrays : List (List α))
    (starts : List Nat) : List (List α) :=
  List.zipWith (fun array start => (generatorStep batch_size array start).1)
    arrays starts

/-- The updated cursor list `starts` after one `while True` iteration. -/
def generatorStarts (batch_size : Nat) (arrays : List (List α))
    (starts : List Nat) : List Nat :=
  List.zipWith (fun array start => (generatorStep batch_size array start).2)
    arrays starts

/-- The cursor list after `k` production calls of `generator`, from the
initial state `starts = [0] * len(arrays)`. -/
def startsAfter (batch_size : Nat) (arrays : List (List α)) :
    Nat → List Nat
  | 0 => List.replicate arrays.length 0
  | k + 1 => generatorStarts batch_size arrays
      (startsAfter batch_size arrays k)

/-- The list of batches yielded by production call `k + 1` (zero-indexed
call `k`) of `generator`. -/
def batchesAt (batch_size : Nat) (arrays : List (List α)) (k : Nat) :
    List (List α) :=
  generatorBatches batch_size arrays (startsAfter batch_size arrays k)

/-- A Python slice is a `take` of a `drop`. -/
theorem pySlice_eq (a : List α) (i j : Nat) :
    pySlice a i j = (a.drop i).take (j - i) := by
  induction a generalizing i j with
  | nil => simp [pySlice]
  | cons x xs ih =>
    cases i with
    | zero => simp [pySlice]
    | succ i =>
      cases j with
      | zero => simp [pySlice]
      | succ j =>
        simp only [pySlice, List.take_succ_cons, List.drop_succ_cons,
          Nat.succ_sub_succ]
        exact ih i j

/-- The batch produced by one step has exactly `batch_size` rows, provided
the batch size is at most the array length and the cursor is at most the
array length. -/
theorem generatorStep_length (B : Nat) (array : List α) (c : Nat)
    (hB : B ≤ array.length) (hc : c ≤ array.length) :
    ((generatorStep B array c).1).length = B := by
  simp only [generatorStep]
  split_ifs with h
  · simp only [pySlice_eq, List.length_take, List.length_drop]
    omega
  · simp only [List.length_append, List.length_take, List.length_drop]
    omega

/-- The cursor after one step stays at most the array length, provided the
batch size is at most the array length and the cursor was. -/
theorem generatorStep_cursor_le (B : Nat) (array : List α) (c : Nat)
    (hB : B ≤ array.length) (hc : c ≤ array.length) :
    (generatorStep B array c).2 ≤ array.length := by
  simp only [generatorStep]
  split_ifs with h
  · exact h
  · omega

/-- The cursor after one step is congruent to `c + B` modulo the array
length, whichever branch is taken. -/
theorem generatorStep_cursor_mod (B : Nat) (array : List α) (c : Nat) :
    (generatorStep B array c).2 % array.length =
      (c + B) % array.length := by
  simp only [generatorStep]
  split_ifs with h
  · rfl
  · have he : c + B - array.length + array.length = c + B := by omega
    rw [← Nat.add_mod_right (c + B - array.length) array.length, he]

/-- The cursor stays at most the array length along the whole run, provided
the batch size is at most the array length and the initial cursor is. -/
theorem cursorAfter_le (B : Nat) (array : List α) (start : Nat)
    (hB : B ≤ array.length) (hs : start ≤ array.length) (k : Nat) :
    cursorAfter B array start k ≤ array.length := by
  induction k with
  | zero => exact hs
  | succ k ih => exact generatorStep_cursor_le B array _ hB ih

/-- The cursor after `k` calls is congruent to `start + k * B` modulo the
array length. -/
theorem cursorAfter_mod (B : Nat) (array : List α) (start : Nat) (k : Nat) :
    cursorAfter B array start k % array.length =
      (start + k * B) % array.length := by
  induction k with
  | zero => simp [cursorAfter]
  | succ k ih =>
    have h1 : (cursorAfter B array start k + B) % array.length =
        (start + k * B + B) % array.length := by
      rw [← Nat.mod_add_mod, ih, Nat.mod_add_mod]
    have h2 : start + k * B + B = start + (k + 1) * B := by ring
    rw [cursorAfter, generatorStep_cursor_mod, h1, h2]

/-- Row `j` of the batch produced by one step is row `(c + j) % length` of
the array, for `j < B`, provided `B` and `c` are at most the array length. -/
theorem generatorStep_getElem (B : Nat) (array : List α) (c : Nat)
    (hB : B ≤ array.length) (hc : c ≤ array.length)
    (j : Nat) (hj : j < B) :
    ((generatorStep B array c).1)[j]? = array[(c + j) % array.length]? := by
  have hL : 0 < array.length := by omega
  simp only [generatorStep]
  split_ifs with h
  · simp only [pySlice_eq]
    rw [List.getElem?_take, if_pos (by omega), List.getElem?_drop]
    have hm : (c + j) % array.length = c + j := Nat.mod_eq_of_lt (by omega)
    rw [hm]
  · rw [List.getElem?_append, List.length_drop]
    split_ifs with h2
    · rw [List.getElem?_drop]
      have hm : (c + j) % array.length = c + j := Nat.mod_eq_of_lt (by omega)
      rw [hm]
    · rw [List.getElem?_take, if_pos (by omega)]
      have hm : (c + j) % array.length = c + j - array.length := by
        rw [Nat.mod_eq_sub_mod (by omega)]
        exact Nat.mod_eq_of_lt (by omega)
      rw [hm]
      congr 1
      omega

/-- Every batch along the run of a single tracked array has exactly `B`
rows, provided `B` and the initial cursor are at most the array length. -/
theorem batchAt_length (B : Nat) (array : List α) (start : Nat)
    (hB : B ≤ array.length) (hs : start ≤ array.length) (k : Nat) :
    (batchAt B array start k).length = B :=
  generatorStep_length B array _ hB (cursorAfter_le B array start hB hs k)

/-- The cursor list of the multi-array generator after `k` calls is the list
of single-array cursors: each array's cursor evolves independently. -/
theorem startsAfter_eq_map (B : Nat) (arrays : List (List α)) (k : Nat) :
    startsAfter B arrays k =
      arrays.map (fun a => cursorAfter B a 0 k) := by
  induction k with
  | zero =>
    simp only [startsAfter, cursorAfter]
    exact (List.map_const' arrays 0).symm
  | succ k ih =>
    simp only [startsAfter, ih, generatorStarts, cursorAfter]
    rw [List.zipWith_map_right, List.zipWith_same]

/-- The batches of the multi-array generator at call `k` are the list of
single-array batches: each array's batch is what cycling it alone yields. -/
theorem batchesAt_eq_map (B : Nat) (arrays : List (List α)) (k : Nat) :
    batchesAt B arrays k = arrays.map (fun a => batchAt B a 0 k) := by
  simp only [batchesAt, generatorBatches, startsAfter_eq_map, batchAt]
  rw [List.zipWith_map_right, List.zipWith_same]

/-- With batch size `0`, the cursor of any array stays at `0` forever. -/
theorem cursorAfter_zero_batch (array : List α) (k : Nat) :
    cursorAfter 0 array 0 k = 0 := by
  induction k with
  | zero => rfl
  | succ k ih =>
    simp [cursorAfter, ih, generatorStep, pySlice]

/-- Every batch produced from an empty array is empty, whatever the cursor
and the batch size. -/
theorem generatorStep_nil (B c : Nat) :
    (generatorStep B ([] : List α) c).1 = [] := by
  simp [generatorStep, pySlice]

/-- Claim C1: one production step with `start + B ≤ L` returns the slice
`array[start:start+B]` (row `j` of the batch is row `start + j` of the
array, a direct read with no duplication) and advances the cursor to
`start + B`; with `start + B > L` it returns the tail `array[start:]`
concatenated with the wrap-around `array[:diff]` where
`diff = start + B - L`, and sets the cursor to `diff`.  In particular for
`L = 10`, `B = 4`, `start = 8` the batch is rows `[8, 9, 0, 1]` and the new
cursor is `2`. -/
theorem generatorStep_production_spec (array : List α) (B start : Nat)
    (hB : 1 ≤ B) :
    (start + B ≤ array.length →
        generatorStep B array start = ((array.drop start).take B, start + B) ∧
        ∀ j, j < B →
          ((generatorStep B array start).1)[j]? = array[start + j]?) ∧
    (array.length < start + B →
        generatorStep B array start =
          (array.drop start ++ array.take (start + B - array.length),
            start + B - array.length)) ∧
    generatorStep 4 (List.range 10) 8 = ([8, 9, 0, 1], 2) := by
  refine ⟨fun h => ⟨?_, fun j hj => ?_⟩, fun h => ?_, by decide⟩
  · simp only [generatorStep, if_pos h, pySlice_eq, Nat.add_sub_cancel_left]
  · simp only [generatorStep, if_pos h, pySlice_eq, Nat.add_sub_cancel_left]
    rw [List.getElem?_take, if_pos hj, List.getElem?_drop]
  · have hn : ¬ start + B ≤ array.length := by omega
    simp only [generatorStep, if_neg hn]

/-- Claim C1 witness: the wrap example at `L = 10`, `B = 4`, `start = 8`. -/
theorem generatorStep_production_spec_witness :
    generatorStep 4 (List.range 10) 8 = ([8, 9, 0, 1], 2) :=
  (generatorStep_production_spec (List.range 10) 4 8 (by decide)).2.2

/-- Claim C2 counterexample: with one array of length `1` and batch size
`1` (so `1 ≤ B ≤ L`), after the first production call the cursor list is
`[1]`, and `1 < 1` is false: the strict invariant `start < length` fails
at rest. -/
theorem cursor_strict_invariant_cex :
    startsAfter 1 [[(0 : Nat)]] 1 = [1] ∧
      ¬ (1 : Nat) < List.length [(0 : Nat)] := by
  constructor
  · rfl
  · decide

/-- Claim C2 (amended): with `1 ≤ B ≤ length` for every tracked array and
cursors initialized to `0`, after every production call every cursor
satisfies `0 ≤ start ≤ length` — the bound is not strict, since a slice
ending exactly at the array's end leaves the cursor equal to the length. -/
theorem cursor_invariant_le (B : Nat) (arrays : List (List α))
    (h : ∀ a ∈ arrays, 1 ≤ B ∧ B ≤ a.length) (k : Nat) :
    List.Forall₂ (fun s a => s ≤ List.length a)
      (startsAfter B arrays k) arrays := by
  rw [startsAfter_eq_map, List.forall₂_map_left_iff, List.forall₂_same]
  intro a ha
  exact cursorAfter_le B a 0 (h a ha).2 (Nat.zero_le _) k

/-- Claim C2 witness: the amended invariant at a concrete generator. -/
theorem cursor_invariant_le_witness :
    (∀ a ∈ [[(7 : Nat), 8], [1, 2, 3]], 1 ≤ 2 ∧ 2 ≤ a.length) ∧
      List.Forall₂ (fun s a => s ≤ List.length a)
        (startsAfter 2 [[(7 : Nat), 8], [1, 2, 3]] 1)
        [[(7 : Nat), 8], [1, 2, 3]] :=
  ⟨by decide, cursor_invariant_le 2 [[(7 : Nat), 8], [1, 2, 3]] (by decide) 1⟩

/-- Claim C3: with batch size `B ≥ 1` and every array of length at least
`B`, cursors initialized to `0`, every batch of every production call has
exactly `B` rows. -/
theorem batches_length_eq_batchSize (B : Nat) (arrays : List (List α))
    (hB : 1 ≤ B) (h : ∀ a ∈ arrays, B ≤ a.length) (k : Nat) :
    ∀ b ∈ batchesAt B arrays k, b.length = B := by
  rw [batchesAt_eq_map]
  intro b hb
  rcases List.mem_map.mp hb with ⟨a, ha, rfl⟩
  exact batchAt_length B a 0 (h a ha) (Nat.zero_le _) k

/-- Claim C3 witness: the second call on arrays of lengths `3` and `2`
with `B = 2` yields the batch `[3, 1]` for the first array (a wrapping
batch), of length `2`. -/
theorem batches_length_eq_batchSize_witness :
    List.length [(3 : Nat), 1] = 2 :=
  batches_length_eq_batchSize 2 [[(1 : Nat), 2, 3], [4, 5]] (by decide)
    (by decide) 1 [3, 1] (by decide)

/-- Arithmetic helper: `⌈L/B⌉ * B` rows reach at least `L`. -/
theorem ceil_mul_ge (L B : Nat) (hB : 1 ≤ B) :
    L ≤ ((L + B - 1) / B) * B := by
  have h := Nat.div_add_mod (L + B - 1) B
  have h2 : (L + B - 1) % B < B := Nat.mod_lt _ hB
  generalize hq : (L + B - 1) / B = q at h
  generalize hr : (L + B - 1) % B = r at h h2
  have h3 : B * q = q * B := Nat.mul_comm B q
  omega

/-- Arithmetic helper: a position `t < L` lies in call number `t / B`,
which is below `⌈L/B⌉`. -/
theorem div_lt_ceil (t L B : Nat) (hB : 1 ≤ B) (ht : t < L) :
    t / B < (L + B - 1) / B := by
  refine Nat.div_lt_of_lt_mul ?_
  have h1 := ceil_mul_ge L B hB
  have h2 : ((L + B - 1) / B) * B = B * ((L + B - 1) / B) :=
    Nat.mul_comm _ _
  omega

/-- Arithmetic helper: `t / B * B + t % B = t`. -/
theorem div_mul_add_mod (t B : Nat) : t / B * B + t % B = t := by
  have h := Nat.div_add_mod t B
  have h2 : B * (t / B) = t / B * B := Nat.mul_comm B (t / B)
  omega

/-- Claim C4: for a single cycled array of length `L` with `1 ≤ B ≤ L`,
from any cursor `start0 < L`, after `⌈L/B⌉ = (L + B - 1) / B` production
calls every one of the `L` original rows has appeared in at least one
produced batch, and the cursor is congruent to `start0 + ⌈L/B⌉ * B`
modulo `L`. -/
theorem cycle_covers_all_rows (array : List α) (B start0 : Nat)
    (hB : 1 ≤ B) (hBL : B ≤ array.length) (hs : start0 < array.length) :
    (∀ i, (hi : i < array.length) →
        ∃ k, k < (array.length + B - 1) / B ∧
          array.get ⟨i, hi⟩ ∈ batchAt B array start0 k) ∧
    cursorAfter B array start0 ((array.length + B - 1) / B) %
        array.length =
      (start0 + ((array.length + B - 1) / B) * B) % array.length := by
  refine ⟨fun i hi => ?_, cursorAfter_mod B array start0 _⟩
  have hL : 0 < array.length := by omega
  obtain ⟨t, hT⟩ : ∃ t, t = (i + array.length - start0) % array.length :=
    ⟨_, rfl⟩
  have ht : t < array.length := hT ▸ Nat.mod_lt _ hL
  refine ⟨t / B, div_lt_ceil t array.length B hB ht, ?_⟩
  have hj : t % B < B := Nat.mod_lt _ hB
  have hc : cursorAfter B array start0 (t / B) ≤ array.length :=
    cursorAfter_le B array start0 hBL (Nat.le_of_lt hs) (t / B)
  have hel := generatorStep_getElem B array
    (cursorAfter B array start0 (t / B)) hBL hc (t % B) hj
  have hmod : (cursorAfter B array start0 (t / B) + t % B) %
      array.length = i := by
    rw [← Nat.mod_add_mod, cursorAfter_mod, Nat.mod_add_mod]
    have h4 : start0 + t / B * B + t % B = start0 + t := by
      have h5 := div_mul_add_mod t B
      omega
    rw [h4, hT, Nat.add_mod_mod]
    have h6 : start0 + (i + array.length - start0) = i + array.length := by
      omega
    rw [h6, Nat.add_mod_right]
    exact Nat.mod_eq_of_lt hi
  rw [hmod] at hel
  have hsome : array[i]? = some (array.get ⟨i, hi⟩) := by
    rw [List.getElem?_eq_getElem hi, List.get_eq_getElem]
  rw [hsome] at hel
  exact List.getElem?_mem hel

/-- Claim C4 witness: array `[5, 6, 7]`, `B = 2`, `start0 = 1`; after
`⌈3/2⌉ = 2` calls the cursor is congruent to `1 + 2 * 2` modulo `3`. -/
theorem cycle_covers_all_rows_witness :
    (1 ≤ 2 ∧ 2 ≤ List.length [(5 : Nat), 6, 7] ∧
      1 < List.length [(5 : Nat), 6, 7]) ∧
    cursorAfter 2 [(5 : Nat), 6, 7] 1
        ((List.length [(5 : Nat), 6, 7] + 2 - 1) / 2) %
        List.length [(5 : Nat), 6, 7] =
      (1 + ((List.length [(5 : Nat), 6, 7] + 2 - 1) / 2) * 2) %
        List.length [(5 : Nat), 6, 7] :=
  ⟨by decide,
    (cycle_covers_all_rows [(5 : Nat), 6, 7] 2 1 (by decide) (by decide)
      (by decide)).2⟩

/-- Claim C5 counterexample: with array `[0]` of length `L = 1` and
`B = L = 1`, the first call produces the full array but moves the cursor
from `0` to `1 = L`, so the cursor is not unchanged by each call. -/
theorem fullBatch_cursor_cex :
    batchAt 1 [(0 : Nat)] 0 0 = [0] ∧
      cursorAfter 1 [(0 : Nat)] 0 1 = 1 ∧ (1 : Nat) ≠ 0 := by
  refine ⟨rfl, rfl, by decide⟩

/-- Claim C5 (amended): with `B = L ≥ 1` and cursor starting at `0`, every
production call produces the full array as one batch; the first call takes
the in-bounds branch (`diff = 0`) and sets the cursor to `L`, and every
later call wraps with `diff = L`, leaving the cursor at `L` (not at `0`). -/
theorem fullBatch_each_call (array : List α) (h : 1 ≤ array.length)
    (k : Nat) :
    batchAt array.length array 0 k = array ∧
    cursorAfter array.length array 0 (k + 1) = array.length := by
  have hcur : ∀ m, cursorAfter array.length array 0 (m + 1) =
      array.length := by
    intro m
    induction m with
    | zero =>
      simp [cursorAfter, generatorStep]
    | succ m ih =>
      have hn : ¬ array.length + array.length ≤ array.length := by omega
      rw [cursorAfter, ih]
      simp only [generatorStep, if_neg hn]
      omega
  refine ⟨?_, hcur k⟩
  cases k with
  | zero =>
    simp [batchAt, cursorAfter, generatorStep, pySlice, List.take_length]
  | succ m =>
    have hn : ¬ array.length + array.length ≤ array.length := by omega
    have h3 : array.length + array.length - array.length = array.length := by
      omega
    simp only [batchAt, hcur m, generatorStep, if_neg hn, h3]
    simp [List.drop_length, List.take_length]

/-- Claim C5 witness: array `[5, 6]` with `B = L = 2`: the first call
produces the full array and sets the cursor to `2`. -/
theorem fullBatch_each_call_witness :
    (1 ≤ List.length [(5 : Nat), 6]) ∧
      batchAt (List.length [(5 : Nat), 6]) [(5 : Nat), 6] 0 0 = [5, 6] ∧
      cursorAfter (List.length [(5 : Nat), 6]) [(5 : Nat), 6] 0 1 =
        List.length [(5 : Nat), 6] :=
  ⟨by decide, fullBatch_each_call [(5 : Nat), 6] (by decide) 0⟩

/-- Claim C6 counterexample: array `[0, 1]` of length `L = 2` with
`B = 4 ≤ 2 * L`: the second production call (call index `1`) yields a
batch of `2` rows, not `B = 4` rows — the claim's "on every production
call" fails. -/
theorem oversizedBatch_cex :
    List.length [(0 : Nat), 1] < 4 ∧ 4 ≤ 2 * List.length [(0 : Nat), 1] ∧
      (batchAt 4 [(0 : Nat), 1] 0 1).length = 2 ∧ (2 : Nat) ≠ 4 := by
  refine ⟨by decide, by decide, rfl, by decide⟩

/-- Claim C6 (amended): with `L ≥ 1` and `L < B ≤ 2 * L`, the first
production call (cursor `0`) executes the wrap with `diff = B - L ≤ L` and
yields a batch of exactly `B` rows in which row `0` of the array appears
twice (at batch positions `0` and `L`); on later calls the cursor grows and
the batch can fall short of `B` rows. -/
theorem oversizedBatch_first_call (array : List α) (B : Nat)
    (hL : 1 ≤ array.length) (h1 : array.length < B)
    (h2 : B ≤ 2 * array.length) :
    (batchAt B array 0 0).length = B ∧
    B - array.length ≤ array.length ∧
    ∃ r, array[0]? = some r ∧ (batchAt B array 0 0)[0]? = some r ∧
      (batchAt B array 0 0)[array.length]? = some r ∧
      (0 : Nat) ≠ array.length := by
  have hn : ¬ B ≤ array.length := by omega
  have hbatch : batchAt B array 0 0 =
      array ++ array.take (B - array.length) := by
    simp [batchAt, cursorAfter, generatorStep, if_neg hn]
  refine ⟨?_, by omega, ?_⟩
  · rw [hbatch]
    simp only [List.length_append, List.length_take]
    omega
  · have h0 : 0 < array.length := hL
    refine ⟨array.get ⟨0, h0⟩, ?_, ?_, ?_, by omega⟩
    · rw [List.getElem?_eq_getElem h0]
      rfl
    · rw [hbatch, List.getElem?_append, if_pos h0,
        List.getElem?_eq_getElem h0]
      rfl
    · rw [hbatch, List.getElem?_append]
      have hnlt : ¬ array.length < array.length := by omega
      rw [if_neg hnlt, Nat.sub_self, List.getElem?_take,
        if_pos (by omega), List.getElem?_eq_getElem h0]
      rfl

/-- Claim C6 witness: array `[10, 20, 30]` of length `3` with `B = 4`: the
first batch has `4` rows and repeats row `0`. -/
theorem oversizedBatch_first_call_witness :
    (1 ≤ List.length [(10 : Nat), 20, 30] ∧
      List.length [(10 : Nat), 20, 30] < 4 ∧
      4 ≤ 2 * List.length [(10 : Nat), 20, 30]) ∧
    ((batchAt 4 [(10 : Nat), 20, 30] 0 0).length = 4 ∧
      4 - List.length [(10 : Nat), 20, 30] ≤
        List.length [(10 : Nat), 20, 30] ∧
      ∃ r, [(10 : Nat), 20, 30][0]? = some r ∧
        (batchAt 4 [(10 : Nat), 20, 30] 0 0)[0]? = some r ∧
        (batchAt 4 [(10 : Nat), 20, 30] 0 0)[List.length
          [(10 : Nat), 20, 30]]? = some r ∧
        (0 : Nat) ≠ List.length [(10 : Nat), 20, 30]) :=
  ⟨by decide,
    oversizedBatch_first_call [(10 : Nat), 20, 30] 4 (by decide) (by decide)
      (by decide)⟩

/-- Claim C7: every production call yields one batch per array (the batch
list has one entry per tracked array), and each array's cursor and batch
after `k` calls equal what cycling that array alone (a singleton generator)
would produce — arrays wrap independently of one another. -/
theorem lockstep_independent (B : Nat) (arrays : List (List α)) (k i : Nat)
    (h : i < arrays.length) :
    (batchesAt B arrays k).length = arrays.length ∧
    (batchesAt B arrays k)[i]? =
      some (batchAt B (arrays.get ⟨i, h⟩) 0 k) ∧
    (startsAfter B arrays k)[i]? =
      some (cursorAfter B (arrays.get ⟨i, h⟩) 0 k) ∧
    batchesAt B [arrays.get ⟨i, h⟩] k =
      [batchAt B (arrays.get ⟨i, h⟩) 0 k] ∧
    startsAfter B [arrays.get ⟨i, h⟩] k =
      [cursorAfter B (arrays.get ⟨i, h⟩) 0 k] := by
  refine ⟨?_, ?_, ?_, ?_, ?_⟩
  · rw [batchesAt_eq_map, List.length_map]
  · rw [batchesAt_eq_map, List.getElem?_map,
      List.getElem?_eq_getElem h, List.get_eq_getElem]
    rfl
  · rw [startsAfter_eq_map, List.getElem?_map,
      List.getElem?_eq_getElem h, List.get_eq_getElem]
    rfl
  · rw [batchesAt_eq_map]
    rfl
  · rw [startsAfter_eq_map]
    rfl

/-- Claim C7 witness: two arrays of lengths `3` and `2` with `B = 2`,
after one call: two batches, each identical to the singleton-generator
batch of its own array. -/
theorem lockstep_independent_witness :
    (1 < List.length [[(1 : Nat), 2, 3], [4, 5]]) ∧
    ((batchesAt 2 [[(1 : Nat), 2, 3], [4, 5]] 1).length =
        List.length [[(1 : Nat), 2, 3], [4, 5]] ∧
      (batchesAt 2 [[(1 : Nat), 2, 3], [4, 5]] 1)[1]? =
        some (batchAt 2 (List.get [[(1 : Nat), 2, 3], [4, 5]]
          ⟨1, by decide⟩) 0 1) ∧
      (startsAfter 2 [[(1 : Nat), 2, 3], [4, 5]] 1)[1]? =
        some (cursorAfter 2 (List.get [[(1 : Nat), 2, 3], [4, 5]]
          ⟨1, by decide⟩) 0 1) ∧
      batchesAt 2 [List.get [[(1 : Nat), 2, 3], [4, 5]] ⟨1, by decide⟩] 1 =
        [batchAt 2 (List.get [[(1 : Nat), 2, 3], [4, 5]] ⟨1, by decide⟩)
          0 1] ∧
      startsAfter 2 [List.get [[(1 : Nat), 2, 3], [4, 5]] ⟨1, by decide⟩]
          1 =
        [cursorAfter 2 (List.get [[(1 : Nat), 2, 3], [4, 5]] ⟨1, by decide⟩)
          0 1]) :=
  ⟨by decide, lockstep_independent 2 [[(1 : Nat), 2, 3], [4, 5]] 1 1
    (by decide)⟩

/-- Claim C8: misconfigured generators never yield a correct nonempty
batch.  With batch size `0` (the `B ≤ 0` boundary representable over `Nat`)
every produced batch for any array has `0` rows; with any batch size
`B ≥ 1` over an empty input array, every produced batch for that array has
`0` rows — never exactly `B ≥ 1` rows.  (The source performs no validation
at construction: `generator` only initializes the cursor list, and the
embedding is likewise total.) -/
theorem degenerate_config_batches (B : Nat) (array : List α) (k : Nat)
    (hB : 1 ≤ B) :
    (batchAt 0 array 0 k).length = 0 ∧
    (batchAt B ([] : List α) 0 k).length = 0 ∧
    (batchAt B ([] : List α) 0 k).length ≠ B := by
  refine ⟨?_, ?_, ?_⟩
  · rw [batchAt, cursorAfter_zero_batch]
    simp [generatorStep, pySlice]
  · rw [batchAt, generatorStep_nil]
    rfl
  · rw [batchAt, generatorStep_nil]
    simp
    omega

/-- Claim C8 witness: `B = 0` over `[9, 9]` and `B = 3` over `[]`, third
call. -/
theorem degenerate_config_batches_witness :
    (1 ≤ 3) ∧
    ((batchAt 0 [(9 : Nat), 9] 0 2).length = 0 ∧
      (batchAt 3 ([] : List Nat) 0 2).length = 0 ∧
      (batchAt 3 ([] : List Nat) 0 2).length ≠ 3) :=
  ⟨by decide, degenerate_config_batches 3 [(9 : Nat), 9] 2 (by decide)⟩

/-- A run of the generator: a function giving, after `k` production calls,
the cursor list at rest and the batch list the next call will yield.  It
must start from the all-zero cursors `[0] * len(arrays)` and follow the
`generator` body at every call. -/
def IsGenRun (B : Nat) (arrays : List (List α))
    (f : Nat → List Nat × List (List α)) : Prop :=
  (f 0).1 = List.replicate arrays.length 0 ∧
  ∀ k, (f k).2 = generatorBatches B arrays (f k).1 ∧
    (f (k + 1)).1 = generatorStarts B arrays (f k).1

/-- The canonical run of the generator. -/
def genTrace (B : Nat) (arrays : List (List α)) (k : Nat) :
    List Nat × List (List α) :=
  (startsAfter B arrays k, batchesAt B arrays k)

/-- The run assembled from independent single-array cycling. -/
def indepTrace (B : Nat) (arrays : List (List α)) (k : Nat) :
    List Nat × List (List α) :=
  (arrays.map fun a => cursorAfter B a 0 k,
    arrays.map fun a => batchAt B a 0 k)

/-- The canonical run is a run. -/
theorem genTrace_isGenRun (B : Nat) (arrays : List (List α)) :
    IsGenRun B arrays (genTrace B arrays) :=
  ⟨rfl, fun _ => ⟨rfl, rfl⟩⟩

/-- The independently assembled run is a run. -/
theorem indepTrace_isGenRun (B : Nat) (arrays : List (List α)) :
    IsGenRun B arrays (indepTrace B arrays) := by
  refine ⟨?_, fun k => ⟨?_, ?_⟩⟩
  · simp only [indepTrace, ← startsAfter_eq_map, startsAfter]
  · simp only [indepTrace, ← startsAfter_eq_map, ← batchesAt_eq_map]
    rfl
  · simp only [indepTrace, ← startsAfter_eq_map, startsAfter]

/-- Claim C9: the cycler is deterministic — any two runs over identical
initial arrays, batch size and cursor state produce identical cursor and
batch sequences. -/
theorem generator_deterministic (B : Nat) (arrays : List (List α))
    (f g : Nat → List Nat × List (List α))
    (hf : IsGenRun B arrays f) (hg : IsGenRun B arrays g) :
    ∀ k, f k = g k := by
  have hc : ∀ k, (f k).1 = (g k).1 := by
    intro k
    induction k with
    | zero => rw [hf.1, hg.1]
    | succ k ih => rw [(hf.2 k).2, (hg.2 k).2, ih]
  intro k
  have h1 := hc k
  have h2 : (f k).2 = (g k).2 := by rw [(hf.2 k).1, (hg.2 k).1, h1]
  exact Prod.ext h1 h2

/-- Claim C9 witness: the canonical run and the independently assembled
run over concrete arrays agree at call `3`. -/
theorem generator_deterministic_witness :
    IsGenRun 2 [[(1 : Nat), 2, 3], [4, 5]]
      (genTrace 2 [[(1 : Nat), 2, 3], [4, 5]]) ∧
    IsGenRun 2 [[(1 : Nat), 2, 3], [4, 5]]
      (indepTrace 2 [[(1 : Nat), 2, 3], [4, 5]]) ∧
    genTrace 2 [[(1 : Nat), 2, 3], [4, 5]] 3 =
      indepTrace 2 [[(1 : Nat), 2, 3], [4, 5]] 3 :=
  ⟨genTrace_isGenRun 2 [[(1 : Nat), 2, 3], [4, 5]],
    indepTrace_isGenRun 2 [[(1 : Nat), 2, 3], [4, 5]],
    generator_deterministic 2 [[(1 : Nat), 2, 3], [4, 5]] _ _
      (genTrace_isGenRun 2 [[(1 : Nat), 2, 3], [4, 5]])
      (indepTrace_isGenRun 2 [[(1 : Nat), 2, 3], [4, 5]]) 3⟩

/-- Claim C10: over an array of length `0` with any batch size `B ≥ 1`,
every production call succeeds, every batch for that array is empty, and
the cursor after `k` calls equals `k * B`, growing without bound — the
wrap branch always fires with `diff = start + B` and never resets the
cursor below its old value. -/
theorem emptyArray_cursor_growth (B k : Nat) (hB : 1 ≤ B) :
    cursorAfter B ([] : List α) 0 k = k * B ∧
    batchAt B ([] : List α) 0 k = [] := by
  refine ⟨?_, by rw [batchAt, generatorStep_nil]⟩
  induction k with
  | zero => simp [cursorAfter]
  | succ k ih =>
    have hn : ¬ k * B + B ≤ 0 := by omega
    rw [cursorAfter, ih]
    simp only [generatorStep, List.length_nil, if_neg hn]
    rw [Nat.succ_mul]
    omega

/-- Claim C10 witness: `B = 3`, two calls on the empty array. -/
theorem emptyArray_cursor_growth_witness :
    (1 ≤ 3) ∧
    (cursorAfter 3 ([] : List Nat) 0 2 = 2 * 3 ∧
      batchAt 3 ([] : List Nat) 0 2 = []) :=
  ⟨by decide, emptyArray_cursor_growth 3 2 (by decide)⟩

end BatchTraining
